import Mathlib

/-!
Verification of the data-persistence layer (`DataManager`, the GitHub CSV
helpers, the backup/restore merge) and the prompt-composition engine
(`PromptBuilder._row_content_or_fallback`, `PromptBuilder._generate_prompt`,
`PromptBrowser.render`) of `app.py`, via a shallow embedding.

Tables (pandas DataFrames holding string-coerced CSV data) are modelled as a
column-name list plus a list of rows, each row a list of cell strings aligned
with the columns.  A missing cell (pandas NaN, produced when a column is
added to a frame that lacks it) is modelled as the empty string.  All
network, filesystem and parse failure modes that the code catches are
modelled as `Option`/outcome parameters; code paths the source leaves
un-guarded are modelled as total functions over already-parsed tables.
-/

set_option maxRecDepth 4000

/-- Table model: pandas DataFrame with string-coerced cells.  `cols` is the
column header in order, `rows` the records in order. -/
structure Table where
  cols : List String
  rows : List (List String)
deriving DecidableEq

/-- Index of the first occurrence of column `c` in a header list (pandas
column lookup). -/
def colIndex : List String → String → Option Nat
  | [], _ => none
  | c :: cs, d => if c = d then some 0 else (colIndex cs d).map (· + 1)

/-- Cell of `row` (laid out along `cols`) at column `c`; empty string when
the column is absent (pandas NaN). -/
def cellOf (cols row : List String) (c : String) : String :=
  match colIndex cols c with
  | some i => row.getD i ""
  | none => ""

/-- Re-layout of a row from header `cols` to header `target`
(`df[target]` after inserting any absent columns as empty). -/
def reindexRow (cols row target : List String) : List String :=
  target.map (cellOf cols row)

/-- Column union in order of first appearance, as produced by
`pd.concat` on frames with differing columns. -/
def unionCols (c1 c2 : List String) : List String :=
  c1 ++ c2.filter (fun c => decide (c ∉ c1))

/-- Model of `pd.concat([t1, t2], ignore_index=True)`: rows of `t1` then
rows of `t2`, re-laid-out along the column union, absent cells empty. -/
def concatTables (t1 t2 : Table) : Table :=
  let cols := unionCols t1.cols t2.cols
  ⟨cols,
    t1.rows.map (fun r => reindexRow t1.cols r cols) ++
    t2.rows.map (fun r => reindexRow t2.cols r cols)⟩

/-- Composite key of a row: its cells at the `uniq` columns, in order
(the `subset=` argument of `drop_duplicates`). -/
def rowKey (cols uniq : List String) (row : List String) : List String :=
  uniq.map (cellOf cols row)

/-- Keep-last de-duplication by key `k`: a row survives exactly when no
later row has the same key, surviving rows keep their relative order.  This
is `DataFrame.drop_duplicates(subset, keep="last")` with key `k`. -/
def dedupKeepLast {α β : Type} [DecidableEq β] (k : α → β) : List α → List α
  | [] => []
  | r :: rs =>
    if ∃ x ∈ rs, k x = k r then dedupKeepLast k rs
    else r :: dedupKeepLast k rs

/-- Model of `t.drop_duplicates(subset=uniq, keep="last")`. -/
def drop_duplicates (t : Table) (uniq : List String) : Table :=
  ⟨t.cols, dedupKeepLast (rowKey t.cols uniq) t.rows⟩

/-- The columns of `prompt_elements.csv` (`CSV_COLUMNS` in the source). -/
def CSV_COLUMNS : List String := ["title", "type", "content"]

/-- The columns of `prompt_history.csv` (`PROMPT_HISTORY_COLUMNS`). -/
def PROMPT_HISTORY_COLUMNS : List String := ["name", "timestamp", "prompt"]

/-- The merge-import step of `render_backup_restore_tab` (lines 496-497):
`combined = pd.concat([base_df, new_df], ignore_index=True)` followed by
`combined.drop_duplicates(subset=uniq, keep="last", inplace=True)`. -/
def mergeImport (base incoming : Table) (uniq : List String) : Table :=
  drop_duplicates (concatTables base incoming) uniq

/-- Column coercion used in both branches of `DataManager.load_data`: insert
every requested column absent from the parsed frame with empty values, then
select (and thereby order) exactly `columns`; a frame with zero rows becomes
an empty frame with exactly the requested columns. -/
def normalizeLoad (t : Table) (columns : List String) : Table :=
  if t.rows.isEmpty then ⟨columns, []⟩
  else ⟨columns, t.rows.map (fun r => reindexRow t.cols r columns)⟩

/-- State of the local CSV backend as `load_data`'s unguarded local branch
(lines 175-183) can encounter it: the file is absent and the creating
`df.to_csv(filename)` write either succeeds or raises (line 177); or the
file exists and `pd.read_csv(filename)` parses it (line 179); or it exists
but that read raises (corrupt or zero-byte file) — the local branch wraps
neither call in a try, so both failures escape. -/
inductive LocalFile
  | absent (writeOk : Bool)
  | parsed (t : Table)
  | unreadable
deriving DecidableEq

/-- Model of `DataManager.load_data(filename, columns)`.  `remote` is the
table parsed from a successful GitHub fetch (`none` collapses every caught
failure of the guarded remote branch: secrets missing, HTTP error,
undecodable or unparsable content); `localF` is the local backend state.
A successful remote fetch returns directly; otherwise the local branch
runs unguarded: an absent file is created empty (raising if the write
fails), an existing file is parsed (raising if the read fails), and a
parsed table is coerced to exactly the requested columns. -/
def load_data (remote : Option Table) (localF : LocalFile)
    (columns : List String) : Except String Table :=
  match remote with
  | some t => Except.ok (normalizeLoad t columns)
  | none =>
    match localF with
    | LocalFile.absent true => Except.ok ⟨columns, []⟩
    | LocalFile.absent false => Except.error "local write failed"
    | LocalFile.parsed t => Except.ok (normalizeLoad t columns)
    | LocalFile.unreadable => Except.error "local read failed"

/-- Serialization of a table as `df.to_csv(index=False)` produces it:
header line then one line per row (quoting rules elided; cells here stand
for already-escaped fields). -/
def serializeTable (t : Table) : String :=
  String.intercalate "\n"
    (String.intercalate "," t.cols :: t.rows.map (String.intercalate ","))

/-- Outcome of the conditional GitHub PUT in `_gh_write_csv`: success,
rejection of a stale revision token (HTTP 409 raised by
`raise_for_status`), or any other HTTP/network failure. -/
inductive GhPut
  | success
  | conflict
  | failure
deriving DecidableEq

/-- Environment of one `DataManager.save_data` call: whether the GitHub
secrets are fully configured, the outcome the remote PUT would have, and
whether the local `df.to_csv(filename)` write would succeed. -/
structure SaveEnv where
  ghConfigured : Bool
  put : GhPut
  localWriteOk : Bool
deriving DecidableEq

/-- Where `save_data` ended up durably writing the serialized table. -/
inductive SaveResult
  | remote (content : String)
  | localW (content : String)
deriving DecidableEq

/-- Model of `_gh_write_csv`: raises (`Except.error`) when the secrets are
missing, and propagates any PUT failure raised by `raise_for_status`,
including the stale-sha conflict rejection. -/
def _gh_write_csv (env : SaveEnv) (content : String) : Except String String :=
  if env.ghConfigured = false then Except.error "GitHub secrets not configured"
  else
    match env.put with
    | GhPut.success => Except.ok content
    | GhPut.conflict => Except.error "409 conflict"
    | GhPut.failure => Except.error "http error"

/-- Model of `DataManager.save_data`: try `_gh_write_csv`; on any exception
fall back to the local `df.to_csv(filename)` write of the same frame; only
a failure of that local write escapes to the caller. -/
def save_data (env : SaveEnv) (t : Table) : Except String SaveResult :=
  match _gh_write_csv env (serializeTable t) with
  | Except.ok c => Except.ok (SaveResult.remote c)
  | Except.error _ =>
    if env.localWriteOk then Except.ok (SaveResult.localW (serializeTable t))
    else Except.error "local write failed"

/-- Heap trace of the element-restore branch of `render_backup_restore_tab`
(lines 494-498): which DataFrame objects exist, which variable names which
address, and what was saved.  The heap makes the in-place mutation of
`drop_duplicates(..., inplace=True)` visible as a store to one address. -/
structure RestoreTrace where
  heap : List Table
  new_addr : Nat
  base_addr : Nat
  combined_addr : Nat
  saved : Table

/-- Straight-line execution of the element-restore branch.
`new_df = pd.read_csv(up1)` allocates the uploaded table;
`base_df = DataManager.load_data(...)` allocates the stored table;
`combined = pd.concat([base_df, new_df], ignore_index=True)` allocates a
fresh frame; `combined.drop_duplicates(subset=CSV_COLUMNS, keep="last",
inplace=True)` mutates only the `combined` address; `save_data` then reads
`combined`. -/
def restoreElementsMerge (stored uploaded : Table) : RestoreTrace :=
  let heap0 : List Table := [uploaded]
  let heap1 : List Table := heap0 ++ [stored]
  let heap2 : List Table :=
    heap1 ++ [concatTables (heap1.getD 1 ⟨[], []⟩) (heap1.getD 0 ⟨[], []⟩)]
  let heap3 : List Table :=
    heap2.set 2 (drop_duplicates (heap2.getD 2 ⟨[], []⟩) CSV_COLUMNS)
  ⟨heap3, 0, 1, 2, heap3.getD 2 ⟨[], []⟩⟩

/-!  Prompt composition engine (`PromptBuilder`).  The elements DataFrame is
viewed at record level: each row a title/type/content triple of strings. -/

/-- One row of the `prompt_elements` table. -/
structure Element where
  title : String
  type : String
  content : String
deriving DecidableEq

/-- Python whitespace, as stripped by `str.strip()`. -/
def isPySpace (c : Char) : Bool :=
  c == ' ' || c == '\t' || c == '\n' || c == '\r' || c == '\x0b' || c == '\x0c'

/-- Model of Python `str.strip()`: drop leading and trailing whitespace. -/
def pyStrip (s : String) : String :=
  ⟨((s.data.dropWhile isPySpace).reverse.dropWhile isPySpace).reverse⟩

/-- Model of Python `str.title()`: uppercase each letter that follows a
non-letter, lowercase every other letter. -/
def pyTitleAux : Bool → List Char → List Char
  | _, [] => []
  | prevAlpha, c :: cs =>
    (if c.isAlpha then (if prevAlpha then c.toLower else c.toUpper) else c) ::
      pyTitleAux c.isAlpha cs

/-- Python `str.title()` on a string. -/
def pyTitle (s : String) : String := ⟨pyTitleAux false s.data⟩

/-- The `selected` widget value of one section: a selectbox yields a single
string, a multiselect yields a list of strings. -/
inductive Sel
  | str (s : String)
  | list (l : List String)
deriving DecidableEq

/-- The per-section record built by `PromptBuilder._create_section`:
the widget value and the custom free-text (empty unless "Write your own"
was picked). -/
structure SectionData where
  selected : Sel
  custom : String
deriving DecidableEq

/-- The `selections` dict of `PromptBuilder._generate_prompt`, in insertion
order. -/
abbrev Selections := List (String × SectionData)

/-- Model of `PromptBuilder._row_content_or_fallback(df, title)`:
`df[df['title'] == title]` keeps the rows whose title matches exactly and
`.values[0]` reads the first of them; an empty match yields empty content
and no missing label; stripped non-empty content is returned (stripped);
otherwise the title doubles as content and missing label. -/
def _row_content_or_fallback (df : List Element) (title : String) : String × String :=
  match df.find? (fun r => r.title == title) with
  | none => ("", "")
  | some r =>
    let content := pyStrip r.content
    if content ≠ "" then (content, "") else (title, title)

/-- One resolved reference as `_generate_prompt` consumes it: the content
together with the formatted missing-content notice (the caller appends
`f"{title} → {m}"` whenever the missing label `m` is non-empty). -/
def resolveSection (dispTitle : String) (df : List Element) (title : String) :
    String × List String :=
  let cm := _row_content_or_fallback df title
  (cm.1, if cm.2 ≠ "" then [dispTitle ++ " → " ++ cm.2] else [])

/-- The skip test of `_generate_prompt` (line 374): a selectbox value equal
to "Skip", or a multiselect value that is empty or exactly ["Skip"]. -/
def isSkipSel : Sel → Bool
  | Sel.str s => s == "Skip"
  | Sel.list l => l.isEmpty || l == ["Skip"]

/-- Display title of a section (lines 377-379): `section.title()`, except
that the audience section displays as "Target Audience". -/
def sectionTitle (sec : String) : String :=
  if sec == "audience" then "Target Audience" else pyTitle sec

/-- Membership of a section in the multiselect group (line 382). -/
def isMultiSection (sec : String) : Bool :=
  sec == "audience" || sec == "context" || sec == "output"

/-- The multiselect resolution loop (lines 386-392): entries equal to
"Skip" or "Write your own" are dropped; each remaining title is resolved,
non-empty missing labels are reported and non-empty contents collected in
order. -/
def multiResolve (df : List Element) (dispTitle : String) :
    List String → List String × List String
  | [] => ([], [])
  | t :: ts =>
    if t == "Skip" || t == "Write your own" then multiResolve df dispTitle ts
    else
      let cm := _row_content_or_fallback df t
      let rest := multiResolve df dispTitle ts
      ((if cm.1 ≠ "" then cm.1 :: rest.1 else rest.1),
       (if cm.2 ≠ "" then (dispTitle ++ " → " ++ cm.2) :: rest.2 else rest.2))

/-- One iteration of the section loop of `_generate_prompt` (lines
370-417): the optional formatted part this section contributes, and the
missing-content notices it reports. -/
def sectionPart (df : List Element) (sec : String) (data : SectionData) :
    Option String × List String :=
  if isSkipSel data.selected then (none, [])
  else
    let title := sectionTitle sec
    if isMultiSection sec then
      let cn : String × List String :=
        if data.custom ≠ "" then (data.custom, [])
        else
          match data.selected with
          | Sel.list l =>
            let sm := multiResolve df title l
            (String.intercalate "\n" sm.1, sm.2)
          | Sel.str s =>
            if s ≠ "Skip" ∧ s ≠ "Write your own" then resolveSection title df s
            else ("", [])
      ((if cn.1 ≠ "" then some (title ++ ":\n" ++ cn.1) else none), cn.2)
    else
      let cn : String × List String :=
        match data.selected with
        | Sel.str s =>
          if s == "Write your own" then (data.custom, [])
          else resolveSection title df s
        | Sel.list _ => ("", [])
      ((if cn.1 ≠ "" then some (title ++ ": " ++ cn.1) else none), cn.2)

/-- The section loop: collect the non-empty parts and all notices, in
iteration order. -/
def genAux (df : List Element) : Selections → List String × List String
  | [] => ([], [])
  | (sec, data) :: rest =>
    let pm := sectionPart df sec data
    let pms := genAux df rest
    ((match pm.1 with
      | some p => p :: pms.1
      | none => pms.1),
     pm.2 ++ pms.2)

/-- The literal appended by `_generate_prompt` when `recursive_feedback`
is set (lines 421-425), leading blank-line separator included. -/
def FEEDBACK_SUFFIX : String :=
  "\n\nBefore you provide the response, please ask me any questions that you feel could help you craft a better response. If you feel you have enough information to craft this response, please just provide it."

/-- Model of `PromptBuilder._generate_prompt(selections, df,
recursive_feedback)`: join the non-empty section parts with blank lines,
then append the feedback suffix whenever `recursive_feedback` is set. -/
def _generate_prompt (selections : Selections) (df : List Element)
    (recursive_feedback : Bool) : String × List String :=
  let pm := genAux df selections
  let prompt := String.intercalate "\n\n" pm.1
  (match recursive_feedback with
   | true => prompt ++ FEEDBACK_SUFFIX
   | false => prompt,
   pm.2)

/-!  Prompt history browsing (`PromptBrowser.render`). -/

/-- One row of the `prompt_history` table (timestamp still the stored
string; parsing is the browser's concern). -/
structure PromptRecord where
  name : String
  timestamp : String
  prompt : String
deriving DecidableEq

/-- Model of `pd.to_datetime(df["timestamp"])` under an abstract timestamp
parser: all-or-nothing, as `to_datetime` raises on the first unparsable
entry (the browser catches that and shows insertion order). -/
def parseAll (parse : String → Option Int) :
    List PromptRecord → Option (List (Int × PromptRecord))
  | [] => some []
  | r :: rs =>
    match parse r.timestamp, parseAll parse rs with
    | some t, some ks => some ((t, r) :: ks)
    | _, _ => none

/-- Contract of `df.sort_values("timestamp", ascending=False)` with the
default `kind='quicksort'`: the output is a permutation of the input that
is non-increasing in the key.  The pandas documentation guarantees nothing
more for this kind — in particular not stability — so the sorting routine
is a parameter constrained only by this contract. -/
def SortsDescending
    (sortImpl : List (Int × PromptRecord) → List (Int × PromptRecord)) : Prop :=
  ∀ l, (sortImpl l).Perm l ∧ (sortImpl l).Pairwise (fun a b => b.1 ≤ a.1)

/-- Display order of `PromptBrowser.render` (lines 458-462): parse every
timestamp and sort descending; if parsing (or sorting) raises, swallow the
exception and keep insertion order. -/
def browserOrder (parse : String → Option Int)
    (sortImpl : List (Int × PromptRecord) → List (Int × PromptRecord))
    (records : List PromptRecord) : List PromptRecord :=
  match parseAll parse records with
  | none => records
  | some keyed => (sortImpl keyed).map Prod.snd

/-- Descending insertion of one keyed record (an admissible
implementation of the sorting contract, used to instantiate it). -/
def insertDesc (x : Int × PromptRecord) :
    List (Int × PromptRecord) → List (Int × PromptRecord)
  | [] => [x]
  | y :: ys => if y.1 ≤ x.1 then x :: y :: ys else y :: insertDesc x ys

/-- Descending insertion sort on keyed records. -/
def sortDesc : List (Int × PromptRecord) → List (Int × PromptRecord)
  | [] => []
  | x :: xs => insertDesc x (sortDesc xs)

/-- A sorting routine satisfying the `sort_values` contract that reverses
ties: descending insertion sort of the reversed input. -/
def antiStableSort (l : List (Int × PromptRecord)) : List (Int × PromptRecord) :=
  sortDesc l.reverse

/-!  Generic properties of keep-last de-duplication. -/

section DedupLemmas

variable {α β : Type} [DecidableEq β] (k : α → β)

theorem dedupKeepLast_cons (r : α) (rs : List α) :
    dedupKeepLast k (r :: rs) =
      if ∃ x ∈ rs, k x = k r then dedupKeepLast k rs
      else r :: dedupKeepLast k rs := rfl

theorem dedupKeepLast_sublist (l : List α) : (dedupKeepLast k l).Sublist l := by
  induction l with
  | nil => simp [dedupKeepLast]
  | cons r rs ih =>
    rw [dedupKeepLast_cons]
    by_cases h : ∃ x ∈ rs, k x = k r
    · rw [if_pos h]
      exact ih.cons r
    · rw [if_neg h]
      exact ih.cons₂ r

theorem dedupKeepLast_subset (l : List α) : dedupKeepLast k l ⊆ l :=
  (dedupKeepLast_sublist k l).subset

theorem dedupKeepLast_key_mem {l : List α} {b : β} :
    (∃ x ∈ dedupKeepLast k l, k x = b) ↔ (∃ x ∈ l, k x = b) := by
  induction l with
  | nil => simp [dedupKeepLast]
  | cons r rs ih =>
    rw [dedupKeepLast_cons]
    by_cases h : ∃ x ∈ rs, k x = k r
    · rw [if_pos h]
      constructor
      · rintro ⟨x, hx, hb⟩
        exact ⟨x, List.mem_cons_of_mem _ (dedupKeepLast_subset k rs hx), hb⟩
      · rintro ⟨x, hx, hb⟩
        rcases List.mem_cons.mp hx with rfl | hx2
        · obtain ⟨y, hy, hey⟩ := h
          exact ih.mpr ⟨y, hy, hey.trans hb⟩
        · exact ih.mpr ⟨x, hx2, hb⟩
    · rw [if_neg h]
      constructor
      · rintro ⟨x, hx, hb⟩
        rcases List.mem_cons.mp hx with rfl | hx2
        · exact ⟨x, List.mem_cons_self x rs, hb⟩
        · obtain ⟨y, hy, hey⟩ := ih.mp ⟨x, hx2, hb⟩
          exact ⟨y, List.mem_cons_of_mem _ hy, hey⟩
      · rintro ⟨x, hx, hb⟩
        rcases List.mem_cons.mp hx with rfl | hx2
        · exact ⟨x, List.mem_cons_self x _, hb⟩
        · obtain ⟨y, hy, hey⟩ := ih.mpr ⟨x, hx2, hb⟩
          exact ⟨y, List.mem_cons_of_mem _ hy, hey⟩

theorem dedupKeepLast_pairwise (l : List α) :
    (dedupKeepLast k l).Pairwise (fun a b => k a ≠ k b) := by
  induction l with
  | nil => simp [dedupKeepLast]
  | cons r rs ih =>
    rw [dedupKeepLast_cons]
    by_cases h : ∃ x ∈ rs, k x = k r
    · rw [if_pos h]
      exact ih
    · rw [if_neg h]
      exact List.Pairwise.cons
        (fun b hb hek => h ⟨b, dedupKeepLast_subset k rs hb, hek.symm⟩) ih

theorem dedupKeepLast_mem_of_last (l1 : List α) (a : α) (l2 : List α)
    (h : ∀ x ∈ l2, k x ≠ k a) : a ∈ dedupKeepLast k (l1 ++ a :: l2) := by
  induction l1 with
  | nil =>
    have hne : ¬ ∃ x ∈ l2, k x = k a := by
      rintro ⟨x, hx, he⟩
      exact h x hx he
    rw [List.nil_append, dedupKeepLast_cons, if_neg hne]
    exact List.mem_cons_self a _
  | cons r rs ih =>
    rw [List.cons_append, dedupKeepLast_cons]
    by_cases hr : ∃ x ∈ rs ++ a :: l2, k x = k r
    · rw [if_pos hr]
      exact ih
    · rw [if_neg hr]
      exact List.mem_cons_of_mem _ ih

theorem dedupKeepLast_append (l m : List α) :
    dedupKeepLast k (l ++ m) =
      (dedupKeepLast k l).filter (fun a => decide (∀ x ∈ m, k x ≠ k a)) ++
        dedupKeepLast k m := by
  induction l with
  | nil => simp [dedupKeepLast]
  | cons r rs ih =>
    rw [List.cons_append, dedupKeepLast_cons, dedupKeepLast_cons]
    by_cases hl : ∃ x ∈ rs, k x = k r
    · obtain ⟨x, hx, he⟩ := hl
      have hlm : ∃ x ∈ rs ++ m, k x = k r := ⟨x, List.mem_append_left m hx, he⟩
      rw [if_pos hlm, if_pos ⟨x, hx, he⟩]
      exact ih
    · by_cases hm : ∃ x ∈ m, k x = k r
      · obtain ⟨x, hx, he⟩ := hm
        have hlm : ∃ x ∈ rs ++ m, k x = k r := ⟨x, List.mem_append_right rs hx, he⟩
        rw [if_pos hlm, if_neg hl]
        have hpr : (decide (∀ x ∈ m, k x ≠ k r)) = false := by
          rw [decide_eq_false_iff_not]
          push_neg
          exact ⟨x, hx, he⟩
        rw [ih, List.filter_cons, hpr]
        simp
      · have hlm : ¬ ∃ x ∈ rs ++ m, k x = k r := by
          rintro ⟨x, hx, he⟩
          rcases List.mem_append.mp hx with h1 | h2
          · exact hl ⟨x, h1, he⟩
          · exact hm ⟨x, h2, he⟩
        rw [if_neg hlm, if_neg hl]
        have hpr : (decide (∀ x ∈ m, k x ≠ k r)) = true := by
          rw [decide_eq_true_eq]
          intro x hx he
          exact hm ⟨x, hx, he⟩
        rw [ih, List.filter_cons, hpr]
        simp

theorem dedupKeepLast_idem (l : List α) :
    dedupKeepLast k (dedupKeepLast k l) = dedupKeepLast k l := by
  induction l with
  | nil => simp [dedupKeepLast]
  | cons r rs ih =>
    rw [dedupKeepLast_cons]
    by_cases h : ∃ x ∈ rs, k x = k r
    · rw [if_pos h]
      exact ih
    · have h2 : ¬ ∃ x ∈ dedupKeepLast k rs, k x = k r := by
        rw [dedupKeepLast_key_mem]
        exact h
      rw [if_neg h, dedupKeepLast_cons, if_neg h2, ih]

theorem dedupKeepLast_eq_self {l : List α} (h : l.Pairwise (fun a b => k a ≠ k b)) :
    dedupKeepLast k l = l := by
  induction l with
  | nil => rfl
  | cons r rs ih =>
    have h1 := List.pairwise_cons.mp h
    have hne : ¬ ∃ x ∈ rs, k x = k r := by
      rintro ⟨x, hx, he⟩
      exact h1.1 x hx he.symm
    rw [dedupKeepLast_cons, if_neg hne, ih h1.2]

theorem dedupKeepLast_eq_nil_iff {l : List α} : dedupKeepLast k l = [] ↔ l = [] := by
  induction l with
  | nil => simp [dedupKeepLast]
  | cons r rs ih =>
    rw [dedupKeepLast_cons]
    by_cases h : ∃ x ∈ rs, k x = k r
    · obtain ⟨x, hx, he⟩ := h
      rw [if_pos ⟨x, hx, he⟩, ih]
      constructor
      · rintro rfl
        cases hx
      · rintro hh
        cases hh
    · rw [if_neg h]
      simp

theorem dedupKeepLast_reappend (l m : List α) :
    dedupKeepLast k (dedupKeepLast k (l ++ m) ++ m) = dedupKeepLast k (l ++ m) := by
  have hfilter_m : ∀ (n : List α), (∀ a ∈ n, a ∈ m) →
      n.filter (fun a => decide (∀ x ∈ m, k x ≠ k a)) = [] := by
    intro n hn
    apply List.filter_eq_nil_iff.mpr
    intro a ha
    simp only [decide_eq_true_eq]
    push_neg
    exact ⟨a, hn a ha, rfl⟩
  calc dedupKeepLast k (dedupKeepLast k (l ++ m) ++ m)
      = (dedupKeepLast k (dedupKeepLast k (l ++ m))).filter
          (fun a => decide (∀ x ∈ m, k x ≠ k a)) ++ dedupKeepLast k m :=
        dedupKeepLast_append k _ m
    _ = (dedupKeepLast k (l ++ m)).filter
          (fun a => decide (∀ x ∈ m, k x ≠ k a)) ++ dedupKeepLast k m := by
        rw [dedupKeepLast_idem]
    _ = (((dedupKeepLast k l).filter (fun a => decide (∀ x ∈ m, k x ≠ k a)) ++
          dedupKeepLast k m).filter (fun a => decide (∀ x ∈ m, k x ≠ k a))) ++
          dedupKeepLast k m := by
        rw [dedupKeepLast_append]
    _ = (dedupKeepLast k l).filter (fun a => decide (∀ x ∈ m, k x ≠ k a)) ++
          dedupKeepLast k m := by
        rw [List.filter_append]
        have hff : ((dedupKeepLast k l).filter
              (fun a => decide (∀ x ∈ m, k x ≠ k a))).filter
              (fun a => decide (∀ x ∈ m, k x ≠ k a)) =
            (dedupKeepLast k l).filter (fun a => decide (∀ x ∈ m, k x ≠ k a)) := by
          apply List.filter_eq_self.mpr
          intro a ha
          exact @List.of_mem_filter _ (fun a => decide (∀ x ∈ m, k x ≠ k a)) a
            (dedupKeepLast k l) ha
        rw [hff]
        rw [hfilter_m (dedupKeepLast k m) (fun a ha => dedupKeepLast_subset k m ha)]
        rw [List.append_nil]
    _ = dedupKeepLast k (l ++ m) := (dedupKeepLast_append k l m).symm

end DedupLemmas

/-!  Properties of column lookup and row re-layout. -/

theorem colIndex_lt {cols : List String} {c : String} {i : Nat}
    (h : colIndex cols c = some i) : i < cols.length := by
  induction cols generalizing i with
  | nil => cases h
  | cons d ds ih =>
    by_cases hd : d = c
    · simp only [colIndex, if_pos hd, Option.some.injEq] at h
      subst h
      simp
    · simp only [colIndex, if_neg hd, Option.map_eq_some'] at h
      obtain ⟨j, hj, rfl⟩ := h
      exact Nat.succ_lt_succ (ih hj)

theorem colIndex_getD {cols : List String} {c : String} {i : Nat}
    (h : colIndex cols c = some i) : cols.getD i "" = c := by
  induction cols generalizing i with
  | nil => cases h
  | cons d ds ih =>
    by_cases hd : d = c
    · simp only [colIndex, if_pos hd, Option.some.injEq] at h
      subst h
      simpa using hd
    · simp only [colIndex, if_neg hd, Option.map_eq_some'] at h
      obtain ⟨j, hj, rfl⟩ := h
      simpa using ih hj

theorem colIndex_of_mem {cols : List String} {c : String} (h : c ∈ cols) :
    ∃ i, colIndex cols c = some i := by
  induction cols with
  | nil => cases h
  | cons d ds ih =>
    by_cases hd : d = c
    · exact ⟨0, by simp [colIndex, hd]⟩
    · rcases List.mem_cons.mp h with h1 | h2
      · exact absurd h1.symm hd
      · obtain ⟨i, hi⟩ := ih h2
        exact ⟨i + 1, by simp [colIndex, hd, hi]⟩

theorem colIndex_eq_none {cols : List String} {c : String} (h : c ∉ cols) :
    colIndex cols c = none := by
  induction cols with
  | nil => rfl
  | cons d ds ih =>
    have hd : ¬ d = c := fun he => h (he ▸ List.mem_cons_self d ds)
    have h2 : c ∉ ds := fun hm => h (List.mem_cons_of_mem d hm)
    simp [colIndex, hd, ih h2]

theorem cellOf_not_mem {cols row : List String} {c : String} (h : c ∉ cols) :
    cellOf cols row c = "" := by
  simp [cellOf, colIndex_eq_none h]

theorem getD_map_lt {α β : Type} {l : List α} (f : α → β) {i : Nat}
    (h : i < l.length) (d : β) (d2 : α) : (l.map f).getD i d = f (l.getD i d2) := by
  rw [List.getD_eq_getElem _ _ (by simpa using h), List.getD_eq_getElem _ _ h,
    List.getElem_map]

theorem cellOf_map_self (cols : List String) (f : String → String) {c : String}
    (h : c ∈ cols) : cellOf cols (cols.map f) c = f c := by
  obtain ⟨i, hi⟩ := colIndex_of_mem h
  have hlt := colIndex_lt hi
  simp only [cellOf, hi]
  rw [getD_map_lt f hlt "" ""]
  rw [colIndex_getD hi]

theorem mem_unionCols_left {c1 c2 : List String} {c : String} (h : c ∈ c1) :
    c ∈ unionCols c1 c2 :=
  List.mem_append_left _ h

theorem filter_of_map {α β : Type} (f : α → β) (p : β → Bool) (l : List α) :
    (l.map f).filter p = (l.filter (fun a => p (f a))).map f := by
  induction l with
  | nil => rfl
  | cons x xs ih =>
    by_cases h : p (f x) = true
    · simp only [List.map_cons, List.filter_cons, h, if_pos trivial, ih]
    · simp only [List.map_cons, List.filter_cons, h, ih]
      simp

/-- Re-reading a row through a narrower header and back: the cells named by
`u` survive the round trip whenever `u ⊆ cs ⊆ U`. -/
theorem rowKey_reindex_reindex (cs u U : List String)
    (hu : ∀ c ∈ u, c ∈ cs) (hcs : ∀ c ∈ cs, c ∈ U) (r : List String) :
    rowKey U u (reindexRow cs (reindexRow U r cs) U) = rowKey U u r := by
  unfold rowKey
  apply List.map_congr_left
  intro c hc
  have hc_cs := hu c hc
  have hc_U := hcs c hc_cs
  show cellOf U (reindexRow cs (reindexRow U r cs) U) c = cellOf U r c
  unfold reindexRow
  rw [cellOf_map_self U _ hc_U]
  rw [cellOf_map_self cs _ hc_cs]

/-- A row that came from header `cs` is unchanged by a `cs`-narrowing and
re-widening round trip: its cells outside `cs` were already empty. -/
theorem reindex_blank_id (cs U : List String) (hcs : ∀ c ∈ cs, c ∈ U)
    (r0 : List String) :
    reindexRow cs (reindexRow U (reindexRow cs r0 U) cs) U = reindexRow cs r0 U := by
  have h1 : reindexRow U (reindexRow cs r0 U) cs = cs.map (cellOf cs r0) := by
    unfold reindexRow
    apply List.map_congr_left
    intro c hc
    exact cellOf_map_self U (cellOf cs r0) (hcs c hc)
  rw [h1]
  unfold reindexRow
  apply List.map_congr_left
  intro c _hc
  by_cases hmem : c ∈ cs
  · exact cellOf_map_self cs (cellOf cs r0) hmem
  · rw [cellOf_not_mem hmem, cellOf_not_mem hmem]

/-- Core of merge idempotence, stated over the reload pipeline: merge an
upload into a dataset whose header is `cs`, store the result, re-load it
coerced back to `cs`, and merge the same upload again — the stored table
does not change. -/
theorem mergeImport_reload_idem (cs : List String) (brows : List (List String))
    (i : Table) :
    mergeImport (normalizeLoad (mergeImport ⟨cs, brows⟩ i cs) cs) i cs =
      mergeImport ⟨cs, brows⟩ i cs := by
  have hcsU : ∀ c ∈ cs, c ∈ unionCols cs i.cols := fun c hc => mem_unionCols_left hc
  set U := unionCols cs i.cols with hU
  set rb := brows.map (fun r => reindexRow cs r U) with hrb
  set ri := i.rows.map (fun r => reindexRow i.cols r U) with hri
  set kf := rowKey U cs with hkf
  have hmerge1 : mergeImport ⟨cs, brows⟩ i cs = ⟨U, dedupKeepLast kf (rb ++ ri)⟩ := rfl
  by_cases hD : dedupKeepLast kf (rb ++ ri) = []
  · have hnil : rb ++ ri = [] := (dedupKeepLast_eq_nil_iff kf).mp hD
    have hri_nil : ri = [] := (List.append_eq_nil.mp hnil).2
    rw [hmerge1, hD]
    show mergeImport (normalizeLoad ⟨U, []⟩ cs) i cs = ⟨U, []⟩
    have hn : normalizeLoad ⟨U, ([] : List (List String))⟩ cs = ⟨cs, []⟩ := rfl
    rw [hn]
    show (⟨U, dedupKeepLast kf (([] : List (List String)) ++ ri)⟩ : Table) = ⟨U, []⟩
    rw [List.nil_append, hri_nil]
    rfl
  · have hDfalse : (dedupKeepLast kf (rb ++ ri)).isEmpty = false :=
      List.isEmpty_eq_false.mpr hD
    rw [hmerge1]
    have hnorm : normalizeLoad ⟨U, dedupKeepLast kf (rb ++ ri)⟩ cs =
        ⟨cs, (dedupKeepLast kf (rb ++ ri)).map (fun r => reindexRow U r cs)⟩ := by
      simp [normalizeLoad, hDfalse]
    rw [hnorm]
    show (⟨U, dedupKeepLast kf
        (((dedupKeepLast kf (rb ++ ri)).map (fun r => reindexRow U r cs)).map
          (fun r => reindexRow cs r U) ++ ri)⟩ : Table) =
      ⟨U, dedupKeepLast kf (rb ++ ri)⟩
    rw [List.map_map]
    have hkey : ∀ r, kf (reindexRow cs (reindexRow U r cs) U) = kf r :=
      fun r => rowKey_reindex_reindex cs cs U (fun c hc => hc) hcsU r
    have hpairD : (dedupKeepLast kf (rb ++ ri)).Pairwise (fun a b => kf a ≠ kf b) :=
      dedupKeepLast_pairwise kf (rb ++ ri)
    have hpairblank : ((dedupKeepLast kf (rb ++ ri)).map
        ((fun r => reindexRow cs r U) ∘ (fun r => reindexRow U r cs))).Pairwise
        (fun a b => kf a ≠ kf b) := by
      rw [List.pairwise_map]
      refine hpairD.imp ?_
      intro a b hab
      simp only [Function.comp]
      rw [hkey a, hkey b]
      exact hab
    rw [dedupKeepLast_append]
    rw [dedupKeepLast_eq_self kf hpairblank]
    rw [filter_of_map]
    have hfiltercongr : (dedupKeepLast kf (rb ++ ri)).filter
        (fun a => decide (∀ x ∈ ri, kf x ≠ kf
          (((fun r => reindexRow cs r U) ∘ (fun r => reindexRow U r cs)) a))) =
        (dedupKeepLast kf (rb ++ ri)).filter
          (fun a => decide (∀ x ∈ ri, kf x ≠ kf a)) := by
      apply List.filter_congr
      intro a _
      simp only [Function.comp, hkey]
    rw [hfiltercongr]
    have hfilterD : (dedupKeepLast kf (rb ++ ri)).filter
        (fun a => decide (∀ x ∈ ri, kf x ≠ kf a)) =
        (dedupKeepLast kf rb).filter (fun a => decide (∀ x ∈ ri, kf x ≠ kf a)) := by
      rw [dedupKeepLast_append kf rb ri, List.filter_append]
      have h1 : ((dedupKeepLast kf rb).filter
            (fun a => decide (∀ x ∈ ri, kf x ≠ kf a))).filter
            (fun a => decide (∀ x ∈ ri, kf x ≠ kf a)) =
          (dedupKeepLast kf rb).filter (fun a => decide (∀ x ∈ ri, kf x ≠ kf a)) := by
        apply List.filter_eq_self.mpr
        intro a ha
        exact @List.of_mem_filter _ (fun a => decide (∀ x ∈ ri, kf x ≠ kf a)) a
          (dedupKeepLast kf rb) ha
      have h2 : (dedupKeepLast kf ri).filter
          (fun a => decide (∀ x ∈ ri, kf x ≠ kf a)) = [] := by
        apply List.filter_eq_nil_iff.mpr
        intro a ha
        simp only [decide_eq_true_eq]
        push_neg
        exact ⟨a, dedupKeepLast_subset kf ri ha, rfl⟩
      rw [h1, h2, List.append_nil]
    rw [hfilterD]
    have hblankid : ((dedupKeepLast kf rb).filter
        (fun a => decide (∀ x ∈ ri, kf x ≠ kf a))).map
        ((fun r => reindexRow cs r U) ∘ (fun r => reindexRow U r cs)) =
        (dedupKeepLast kf rb).filter (fun a => decide (∀ x ∈ ri, kf x ≠ kf a)) := by
      have hid : ∀ r ∈ (dedupKeepLast kf rb).filter
          (fun a => decide (∀ x ∈ ri, kf x ≠ kf a)),
          ((fun r => reindexRow cs r U) ∘ (fun r => reindexRow U r cs)) r = id r := by
        intro r hr
        have hr_rb : r ∈ rb := dedupKeepLast_subset kf rb (List.mem_of_mem_filter hr)
        obtain ⟨r0, _, rfl⟩ := List.mem_map.mp hr_rb
        simp only [Function.comp, id]
        exact reindex_blank_id cs U hcsU r0
      rw [List.map_congr_left hid, List.map_id]
    rw [hblankid]
    exact congrArg (Table.mk U) (dedupKeepLast_append kf rb ri).symm

/-!  Properties of the admissible sorting routines and of timestamp
parsing, used for the prompt-history browser. -/

theorem insertDesc_perm (x : Int × PromptRecord) (l : List (Int × PromptRecord)) :
    (insertDesc x l).Perm (x :: l) := by
  induction l with
  | nil => exact List.Perm.refl _
  | cons y ys ih =>
    rw [insertDesc]
    by_cases h : y.1 ≤ x.1
    · rw [if_pos h]
    · rw [if_neg h]
      exact (ih.cons y).trans (List.Perm.swap x y ys)

theorem sortDesc_perm (l : List (Int × PromptRecord)) : (sortDesc l).Perm l := by
  induction l with
  | nil => exact List.Perm.refl _
  | cons x xs ih =>
    rw [sortDesc]
    exact (insertDesc_perm x (sortDesc xs)).trans (ih.cons x)

theorem insertDesc_pairwise {x : Int × PromptRecord} {l : List (Int × PromptRecord)}
    (h : l.Pairwise (fun a b => b.1 ≤ a.1)) :
    (insertDesc x l).Pairwise (fun a b => b.1 ≤ a.1) := by
  induction l with
  | nil => simp [insertDesc]
  | cons y ys ih =>
    rw [insertDesc]
    by_cases hyx : y.1 ≤ x.1
    · rw [if_pos hyx]
      refine List.Pairwise.cons ?_ h
      intro b hb
      rcases List.mem_cons.mp hb with rfl | hb2
      · exact hyx
      · exact le_trans ((List.pairwise_cons.mp h).1 b hb2) hyx
    · rw [if_neg hyx]
      have h1 := List.pairwise_cons.mp h
      refine List.Pairwise.cons ?_ (ih h1.2)
      intro b hb
      have hb2 : b ∈ x :: ys := (insertDesc_perm x ys).subset hb
      rcases List.mem_cons.mp hb2 with rfl | hb3
      · exact le_of_not_le hyx
      · exact h1.1 b hb3

theorem sortDesc_sorted (l : List (Int × PromptRecord)) :
    (sortDesc l).Pairwise (fun a b => b.1 ≤ a.1) := by
  induction l with
  | nil => simp [sortDesc]
  | cons x xs ih =>
    rw [sortDesc]
    exact insertDesc_pairwise ih

theorem sortsDescending_sortDesc : SortsDescending sortDesc :=
  fun l => ⟨sortDesc_perm l, sortDesc_sorted l⟩

theorem sortsDescending_antiStableSort : SortsDescending antiStableSort :=
  fun l => ⟨(sortDesc_perm l.reverse).trans (List.reverse_perm l),
    sortDesc_sorted l.reverse⟩

theorem parseAll_map_snd {parse : String → Option Int} {records : List PromptRecord}
    {ks : List (Int × PromptRecord)} (h : parseAll parse records = some ks) :
    ks.map Prod.snd = records := by
  induction records generalizing ks with
  | nil =>
    simp only [parseAll, Option.some.injEq] at h
    subst h
    rfl
  | cons r rs ih =>
    cases hp : parse r.timestamp with
    | none => rw [parseAll, hp] at h; cases h
    | some t =>
      cases hq : parseAll parse rs with
      | none => rw [parseAll, hp, hq] at h; cases h
      | some ks2 =>
        rw [parseAll, hp, hq, Option.some.injEq] at h
        subst h
        simp [ih hq]

theorem parseAll_elem {parse : String → Option Int} {records : List PromptRecord}
    {ks : List (Int × PromptRecord)} (h : parseAll parse records = some ks) :
    ∀ p ∈ ks, parse p.2.timestamp = some p.1 := by
  induction records generalizing ks with
  | nil =>
    simp only [parseAll, Option.some.injEq] at h
    subst h
    intro p hp
    cases hp
  | cons r rs ih =>
    cases hp : parse r.timestamp with
    | none => rw [parseAll, hp] at h; cases h
    | some t =>
      cases hq : parseAll parse rs with
      | none => rw [parseAll, hp, hq] at h; cases h
      | some ks2 =>
        rw [parseAll, hp, hq, Option.some.injEq] at h
        subst h
        intro p hpmem
        rcases List.mem_cons.mp hpmem with rfl | hp2
        · exact hp
        · exact ih hq p hp2

/-!  The composition engine never reads the `type` column: rewriting every
element's type leaves resolution and prompt generation unchanged. -/

theorem row_content_retype (df : List Element) (title t2 : String) :
    _row_content_or_fallback (df.map (fun x => ⟨x.title, t2, x.content⟩)) title =
      _row_content_or_fallback df title := by
  unfold _row_content_or_fallback
  rw [List.find?_map]
  have hp : ((fun r : Element => r.title == title) ∘
      (fun x : Element => (⟨x.title, t2, x.content⟩ : Element))) =
      (fun r : Element => r.title == title) := rfl
  rw [hp]
  cases hf : df.find? (fun r => r.title == title) with
  | none => rfl
  | some e => rfl

theorem multiResolve_retype (df : List Element) (t2 disp : String)
    (l : List String) :
    multiResolve (df.map (fun x => ⟨x.title, t2, x.content⟩)) disp l =
      multiResolve df disp l := by
  induction l with
  | nil => rfl
  | cons t ts ih => simp only [multiResolve, row_content_retype, ih]

theorem sectionPart_retype (df : List Element) (t2 sec : String)
    (data : SectionData) :
    sectionPart (df.map (fun x => ⟨x.title, t2, x.content⟩)) sec data =
      sectionPart df sec data := by
  obtain ⟨selected, custom⟩ := data
  cases selected with
  | str s =>
    simp only [sectionPart, resolveSection, row_content_retype, multiResolve_retype]
  | list l =>
    simp only [sectionPart, resolveSection, row_content_retype, multiResolve_retype]

theorem generate_prompt_retype (selections : Selections) (df : List Element)
    (rf : Bool) (t2 : String) :
    _generate_prompt selections (df.map (fun x => ⟨x.title, t2, x.content⟩)) rf =
      _generate_prompt selections df rf := by
  have hgen : genAux (df.map (fun x => ⟨x.title, t2, x.content⟩)) selections =
      genAux df selections := by
    induction selections with
    | nil => rfl
    | cons sd rest ih => simp only [genAux, sectionPart_retype, ih]
  simp only [_generate_prompt, hgen]

/-!  Shape lemmas for `load_data`, and concrete tables used as witnesses. -/

theorem normalizeLoad_cols (t : Table) (columns : List String) :
    (normalizeLoad t columns).cols = columns := by
  rw [normalizeLoad]
  split <;> rfl

theorem normalizeLoad_row_length (t : Table) (columns : List String) :
    ∀ r ∈ (normalizeLoad t columns).rows, r.length = columns.length := by
  rw [normalizeLoad]
  split
  · intro r hr
    cases hr
  · intro r hr
    obtain ⟨r0, _, rfl⟩ := List.mem_map.mp hr
    simp [reindexRow]

/-- The stored `prompt_elements` row of the worked merge example. -/
def exampleStored : Table := ⟨CSV_COLUMNS, [["A", "role", "old"]]⟩

/-- The uploaded `prompt_elements` row of the worked merge example: same
title and type, different content. -/
def exampleIncoming : Table := ⟨CSV_COLUMNS, [["A", "role", "new"]]⟩

/-- C2 counterexample: the local branch of `load_data` is unguarded, so
when the remote yields nothing and the local file is unreadable — or is
absent and its creating write fails — `load_data` raises instead of
returning a table. -/
theorem load_data_raises_on_bad_local :
    (∃ e, load_data none LocalFile.unreadable CSV_COLUMNS = Except.error e)
    ∧ (∃ e, load_data none (LocalFile.absent false) CSV_COLUMNS = Except.error e) :=
  ⟨⟨"local read failed", rfl⟩, ⟨"local write failed", rfl⟩⟩

/-- C2 amended: whenever `load_data` returns a table, that table's column
list is exactly the requested one, every row re-laid-out to its length; a
successful remote fetch returns such a table whatever the local state, and
with the remote unavailable it falls back to the parsed local copy, or to
an empty table (with exactly the requested columns) that an absent local
file is initialized to; but `load_data` can raise — exactly when the
remote yields nothing and the unguarded local branch fails, on an
unreadable local file or a failing creating write.  A requested column
absent from the source data reads as an empty cell. -/
theorem load_data_shape_and_failure (remote : Option Table) (localF : LocalFile)
    (columns : List String) :
    (∀ t, load_data remote localF columns = Except.ok t →
      t.cols = columns ∧ ∀ r ∈ t.rows, r.length = columns.length)
    ∧ (∀ t, load_data (some t) localF columns =
        Except.ok (normalizeLoad t columns))
    ∧ (∀ t, load_data none (LocalFile.parsed t) columns =
        Except.ok (normalizeLoad t columns))
    ∧ load_data none (LocalFile.absent true) columns = Except.ok ⟨columns, []⟩
    ∧ (∀ e, load_data remote localF columns = Except.error e →
        remote = none ∧
          (localF = LocalFile.unreadable ∨ localF = LocalFile.absent false))
    ∧ (∀ (srcCols row : List String) (c : String), c ∉ srcCols →
        cellOf srcCols row c = "") := by
  refine ⟨?_, fun t => rfl, fun t => rfl, rfl, ?_,
    fun srcCols row c hc => cellOf_not_mem hc⟩
  · intro t ht
    cases remote with
    | some t0 =>
      obtain rfl := Except.ok.inj ht
      exact ⟨normalizeLoad_cols t0 columns, normalizeLoad_row_length t0 columns⟩
    | none =>
      cases localF with
      | absent w =>
        cases w with
        | false => simp [load_data] at ht
        | true =>
          obtain rfl := Except.ok.inj ht
          refine ⟨rfl, ?_⟩
          intro r hr
          cases hr
      | parsed t0 =>
        obtain rfl := Except.ok.inj ht
        exact ⟨normalizeLoad_cols t0 columns, normalizeLoad_row_length t0 columns⟩
      | unreadable => simp [load_data] at ht
  · intro e he
    cases remote with
    | some t0 => simp [load_data] at he
    | none =>
      cases localF with
      | absent w =>
        cases w with
        | false => exact ⟨rfl, Or.inr rfl⟩
        | true => simp [load_data] at he
      | parsed t0 => simp [load_data] at he
      | unreadable => exact ⟨rfl, Or.inl rfl⟩

/-- Witness for C2 (amended): a remote table with an extra column and two
missing columns loads — even over a broken local file — as a table shaped
exactly as `CSV_COLUMNS`. -/
theorem load_data_shape_and_failure_witness :
    load_data (some ⟨["extra", "title"], [["e1", "t1"]]⟩) LocalFile.unreadable
        CSV_COLUMNS = Except.ok ⟨CSV_COLUMNS, [["t1", "", ""]]⟩
    ∧ (⟨CSV_COLUMNS, [["t1", "", ""]]⟩ : Table).cols = CSV_COLUMNS := by
  have hok : load_data (some ⟨["extra", "title"], [["e1", "t1"]]⟩)
      LocalFile.unreadable CSV_COLUMNS = Except.ok ⟨CSV_COLUMNS, [["t1", "", ""]]⟩ := by
    have h := (load_data_shape_and_failure
      (some ⟨["extra", "title"], [["e1", "t1"]]⟩) LocalFile.unreadable
      CSV_COLUMNS).2.1 ⟨["extra", "title"], [["e1", "t1"]]⟩
    exact h.trans (congrArg Except.ok (by decide))
  exact ⟨hok,
    ((load_data_shape_and_failure (some ⟨["extra", "title"], [["e1", "t1"]]⟩)
      LocalFile.unreadable CSV_COLUMNS).1 ⟨CSV_COLUMNS, [["t1", "", ""]]⟩ hok).1⟩

/-- C3 counterexample: with `uniqueColumns = CSV_COLUMNS =
[title, type, content]`, the stored row (content "old") and the incoming
row (content "new") differ in the key, so the merge keeps BOTH — the
claim's expected result (only the "new" row) is false. -/
theorem mergeImport_content_key_counterexample :
    (mergeImport exampleStored exampleIncoming CSV_COLUMNS).rows =
      [["A", "role", "old"], ["A", "role", "new"]]
    ∧ ["A", "role", "old"] ∈ (mergeImport exampleStored exampleIncoming CSV_COLUMNS).rows := by
  constructor
  · decide
  · decide

/-- C3 amended: `mergeImport` de-duplicates the concatenation (stored rows
then incoming rows) by the composite key `uniqueColumns`, keeping the last
occurrence: the result is a subsequence of the concatenation, its keys are
pairwise distinct, every key of the concatenation is represented, and any
row after which its key never recurs is kept.  Since the key includes
`content`, rows sharing title and type but differing in content are all
kept: the worked example retains both the "old" and the "new" row. -/
theorem mergeImport_keeps_last_by_key (b i : Table) (uniq : List String) :
    (mergeImport b i uniq).rows.Sublist (concatTables b i).rows
    ∧ (mergeImport b i uniq).rows.Pairwise
        (fun r s => rowKey (concatTables b i).cols uniq r ≠
          rowKey (concatTables b i).cols uniq s)
    ∧ (∀ r ∈ (concatTables b i).rows, ∃ s ∈ (mergeImport b i uniq).rows,
        rowKey (concatTables b i).cols uniq s = rowKey (concatTables b i).cols uniq r)
    ∧ (∀ l1 r l2, (concatTables b i).rows = l1 ++ r :: l2 →
        (∀ x ∈ l2, rowKey (concatTables b i).cols uniq x ≠
          rowKey (concatTables b i).cols uniq r) →
        r ∈ (mergeImport b i uniq).rows)
    ∧ (mergeImport exampleStored exampleIncoming CSV_COLUMNS).rows =
        [["A", "role", "old"], ["A", "role", "new"]] := by
  refine ⟨dedupKeepLast_sublist _ _, dedupKeepLast_pairwise _ _, ?_, ?_, by decide⟩
  · intro r hr
    exact (dedupKeepLast_key_mem (rowKey (concatTables b i).cols uniq)).mpr
      ⟨r, hr, rfl⟩
  · intro l1 r l2 heq hlast
    show r ∈ dedupKeepLast (rowKey (concatTables b i).cols uniq) (concatTables b i).rows
    rw [heq]
    exact dedupKeepLast_mem_of_last _ l1 r l2 hlast

/-- Witness for C3 (amended): the incoming row, last of its key, is kept. -/
theorem mergeImport_keeps_last_by_key_witness :
    ["A", "role", "new"] ∈ (mergeImport exampleStored exampleIncoming CSV_COLUMNS).rows :=
  (mergeImport_keeps_last_by_key exampleStored exampleIncoming CSV_COLUMNS).2.2.2.1
    [["A", "role", "old"]] ["A", "role", "new"] [] (by decide) (by decide)

/-- C5: `save_data` propagates an error only when the local write fails;
when the remote is unconfigured or the remote PUT raises (stale-revision
conflict included) it falls back to a local write of the same serialized
content, and only a configured remote with a successful PUT writes
remotely. -/
theorem save_data_local_fallback (env : SaveEnv) (t : Table) :
    (∀ e, save_data env t = Except.error e → env.localWriteOk = false)
    ∧ (env.localWriteOk = true → env.ghConfigured = false →
        save_data env t = Except.ok (SaveResult.localW (serializeTable t)))
    ∧ (env.localWriteOk = true → env.put = GhPut.conflict →
        save_data env t = Except.ok (SaveResult.localW (serializeTable t)))
    ∧ (env.localWriteOk = true → env.put = GhPut.failure →
        save_data env t = Except.ok (SaveResult.localW (serializeTable t)))
    ∧ (env.ghConfigured = true → env.put = GhPut.success →
        save_data env t = Except.ok (SaveResult.remote (serializeTable t)))
    ∧ (env.localWriteOk = false → env.ghConfigured = false →
        ∃ e, save_data env t = Except.error e) := by
  obtain ⟨gh, put, lw⟩ := env
  cases gh <;> cases put <;> cases lw <;>
    simp [save_data, _gh_write_csv]

/-- Witness for C5: a stale-revision conflict with a healthy local disk
falls back to the local write. -/
theorem save_data_local_fallback_witness :
    save_data ⟨true, GhPut.conflict, true⟩ exampleStored =
      Except.ok (SaveResult.localW (serializeTable exampleStored)) :=
  (save_data_local_fallback ⟨true, GhPut.conflict, true⟩ exampleStored).2.2.1 rfl rfl

/-- C6: merge-import is idempotent over the full store pipeline: merging
the same incoming table a second time — after the first result was saved
and re-loaded coerced to the dataset's columns — stores the very table the
first merge produced. -/
theorem mergeImport_idempotent (b i : Table) (hb : b.cols = CSV_COLUMNS) :
    mergeImport (normalizeLoad (mergeImport b i CSV_COLUMNS) CSV_COLUMNS) i
        CSV_COLUMNS = mergeImport b i CSV_COLUMNS := by
  obtain ⟨bc, br⟩ := b
  have hbc : bc = CSV_COLUMNS := hb
  subst hbc
  exact mergeImport_reload_idem CSV_COLUMNS br i

/-- Witness for C6 at the worked example tables. -/
theorem mergeImport_idempotent_witness :
    mergeImport (normalizeLoad (mergeImport exampleStored exampleIncoming
        CSV_COLUMNS) CSV_COLUMNS) exampleIncoming CSV_COLUMNS =
      mergeImport exampleStored exampleIncoming CSV_COLUMNS :=
  mergeImport_idempotent exampleStored exampleIncoming rfl

/-- C8: the element-restore merge never mutates the caller's uploaded
table: after the run, the address `new_df` names still holds the uploaded
table unchanged (the in-place `drop_duplicates` hit only the freshly
allocated `combined`), and what was saved is the pure merge of stored and
uploaded. -/
theorem restore_merge_preserves_incoming (stored uploaded : Table) :
    (restoreElementsMerge stored uploaded).heap.getD
        (restoreElementsMerge stored uploaded).new_addr ⟨[], []⟩ = uploaded
    ∧ (restoreElementsMerge stored uploaded).saved =
        mergeImport stored uploaded CSV_COLUMNS := by
  constructor
  · rfl
  · rfl

/-- C1 counterexample: with empty (hence all-skipped) selections and the
feedback flag set, the generated prompt is the bare suffix, not the empty
string — the suffix is appended even to an empty body. -/
theorem generate_prompt_suffix_on_empty :
    (_generate_prompt [] [] true).1 = FEEDBACK_SUFFIX ∧ FEEDBACK_SUFFIX ≠ "" := by
  constructor
  · rfl
  · decide

/-- C1 amended: when the feedback flag is set, `_generate_prompt` appends
the fixed suffix (its leading blank-line separator included)
unconditionally — for every selections map and element table the flagged
output is exactly the unflagged output followed by the suffix, notices
unchanged; an all-skip input therefore yields the bare suffix rather than
the empty string. -/
theorem generate_prompt_suffix_unconditional (selections : Selections)
    (df : List Element) :
    _generate_prompt selections df true =
      ((_generate_prompt selections df false).1 ++ FEEDBACK_SUFFIX,
       (_generate_prompt selections df false).2) := rfl

/-- C4 counterexample: content that is non-empty after stripping is
returned STRIPPED, not verbatim; and a whitespace-only row whose title is
itself empty yields no fallback notice, though the claim promises one. -/
theorem row_content_fallback_not_verbatim :
    (_row_content_or_fallback [⟨"X", "role", "  hi  "⟩] "X").1 ≠ "  hi  "
    ∧ resolveSection "Role" [⟨"", "role", ""⟩] "" ≠ ("", ["Role → "]) := by
  constructor
  · decide
  · decide

/-- C4 amended: resolution never raises (it is total) and falls in three
cases — no row with the exact title: empty content, no notice; first
matching row with content non-empty after stripping: that content,
stripped, with no notice; first matching row with whitespace-only content:
the title itself as content, with the notice `"<display> → <title>"`
whenever the title is non-empty (an empty title yields no notice).  In
particular the Expert/role example composes to "Role: Expert" with
notices ["Role → Expert"]. -/
theorem row_content_fallback_spec (df : List Element) (dispTitle title : String) :
    (df.find? (fun r => r.title == title) = none →
      resolveSection dispTitle df title = ("", []))
    ∧ (∀ e, df.find? (fun r => r.title == title) = some e →
        pyStrip e.content ≠ "" →
        resolveSection dispTitle df title = (pyStrip e.content, []))
    ∧ (∀ e, df.find? (fun r => r.title == title) = some e →
        pyStrip e.content = "" →
        resolveSection dispTitle df title =
          (title, if title = "" then [] else [dispTitle ++ " → " ++ title]))
    ∧ _generate_prompt [("role", ⟨Sel.str "Expert", ""⟩)]
        [⟨"Expert", "role", ""⟩] false = ("Role: Expert", ["Role → Expert"]) := by
  refine ⟨?_, ?_, ?_, by decide⟩
  · intro h
    simp [resolveSection, _row_content_or_fallback, h]
  · intro e he hc
    simp [resolveSection, _row_content_or_fallback, he, hc]
  · intro e he hc
    unfold resolveSection _row_content_or_fallback
    rw [he]
    by_cases ht : title = ""
    · simp [hc, ht]
    · simp [hc, ht]

/-- Witness for C4 (amended) at a concrete padded-content row. -/
theorem row_content_fallback_spec_witness :
    resolveSection "Role" [⟨"Expert", "role", "  wise  "⟩] "Expert" = ("wise", []) := by
  have h := (row_content_fallback_spec [⟨"Expert", "role", "  wise  "⟩] "Role"
    "Expert").2.1 ⟨"Expert", "role", "  wise  "⟩ (by decide) (by decide)
  exact h.trans (by decide)

/-- C9 counterexample: a multiselect section whose list is exactly
["Skip"] is dropped by the skip guard even when its custom free-text is
non-empty — the custom text does NOT become the section content. -/
theorem custom_ignored_when_skip :
    _generate_prompt [("audience", ⟨Sel.list ["Skip"], "X"⟩)] [] false = ("", [])
    ∧ ("" : String) ≠ "Target Audience:\nX" := by
  constructor
  · rfl
  · decide

/-- C9 amended: for a multi-choice section that is NOT skipped (its
selection is neither the empty list nor exactly ["Skip"] nor the "Skip"
string), non-empty custom free-text becomes the entire section content:
the section renders as `"<display>:\n<custom>"`, and no element lookup
happens — the result does not depend on the element table or the selected
titles, and no fallback notice is produced. -/
theorem custom_overrides_when_not_skipped (df : List Element) (sec : String)
    (data : SectionData)
    (hsec : sec = "audience" ∨ sec = "context" ∨ sec = "output")
    (hskip : isSkipSel data.selected = false) (hcustom : data.custom ≠ "") :
    sectionPart df sec data = (some (sectionTitle sec ++ ":\n" ++ data.custom), [])
    ∧ _generate_prompt [(sec, data)] df false =
        (sectionTitle sec ++ ":\n" ++ data.custom, []) := by
  have hmulti : isMultiSection sec = true := by
    rcases hsec with rfl | rfl | rfl <;> rfl
  have h1 : sectionPart df sec data =
      (some (sectionTitle sec ++ ":\n" ++ data.custom), []) := by
    simp [sectionPart, hskip, hmulti, hcustom]
  refine ⟨h1, ?_⟩
  have h2 : genAux df [(sec, data)] =
      ([sectionTitle sec ++ ":\n" ++ data.custom], []) := by
    simp [genAux, h1]
  show (String.intercalate "\n\n" (genAux df [(sec, data)]).1,
      (genAux df [(sec, data)]).2) =
    (sectionTitle sec ++ ":\n" ++ data.custom, [])
  rw [h2]
  rfl

/-- Witness for C9 (amended): custom text of a non-skipped audience
section is the whole section, regardless of an unresolvable title in the
list. -/
theorem custom_overrides_when_not_skipped_witness :
    _generate_prompt [("audience", ⟨Sel.list ["Nope"], "X"⟩)] [] false =
      ("Target Audience:\nX", []) := by
  have h := (custom_overrides_when_not_skipped [] "audience"
    ⟨Sel.list ["Nope"], "X"⟩ (Or.inl rfl) rfl (by decide)).2
  exact h.trans (by decide)

/-- C10: resolution matches by title alone over the whole table — the
first row with the matching title alone determines the outcome (rows
before it with other titles and rows after it are irrelevant), the
element's `type` is never consulted (rewriting every type changes neither
resolution nor a full generated prompt). -/
theorem resolve_by_title_ignores_type :
    (∀ (pre : List Element) (e : Element) (post : List Element) (title : String),
      (∀ x ∈ pre, x.title ≠ title) → e.title = title →
      _row_content_or_fallback (pre ++ e :: post) title =
        _row_content_or_fallback [e] title)
    ∧ (∀ (df : List Element) (title t2 : String),
        _row_content_or_fallback (df.map (fun x => ⟨x.title, t2, x.content⟩))
          title = _row_content_or_fallback df title)
    ∧ (∀ (selections : Selections) (df : List Element) (rf : Bool) (t2 : String),
        _generate_prompt selections (df.map (fun x => ⟨x.title, t2, x.content⟩))
          rf = _generate_prompt selections df rf) := by
  refine ⟨?_, fun df title t2 => row_content_retype df title t2,
    fun selections df rf t2 => generate_prompt_retype selections df rf t2⟩
  intro pre e post title hpre he
  have hfind_pre : pre.find? (fun r => r.title == title) = none := by
    apply List.find?_eq_none.mpr
    intro x hx
    simp [hpre x hx]
  have hfind : (pre ++ e :: post).find? (fun r => r.title == title) = some e := by
    rw [List.find?_append, hfind_pre, Option.none_or]
    rw [List.find?_cons]
    have : (e.title == title) = true := by simp [he]
    rw [this]
  have hfind_e : ([e] : List Element).find? (fun r => r.title == title) = some e := by
    rw [List.find?_cons]
    have : (e.title == title) = true := by simp [he]
    rw [this]
  unfold _row_content_or_fallback
  rw [hfind, hfind_e]

/-- Witness for C10: a title stored under a different type resolves, and
the first of two same-titled rows wins. -/
theorem resolve_by_title_ignores_type_witness :
    _row_content_or_fallback
        [⟨"A", "goal", "g"⟩, ⟨"Expert", "tone", "hello"⟩,
          ⟨"Expert", "role", "other"⟩] "Expert" =
      _row_content_or_fallback [⟨"Expert", "tone", "hello"⟩] "Expert" :=
  resolve_by_title_ignores_type.1 [⟨"A", "goal", "g"⟩] ⟨"Expert", "tone", "hello"⟩
    [⟨"Expert", "role", "other"⟩] "Expert" (by decide) rfl

/-- The two history records of the stability counterexample: equal
timestamps, distinct names. -/
def recA : PromptRecord := ⟨"a", "2024-01-01", "p"⟩

/-- Second record of the stability counterexample. -/
def recB : PromptRecord := ⟨"b", "2024-01-01", "q"⟩

/-- C7 counterexample: the browser's sort is only constrained to the
`sort_values(kind='quicksort')` contract — a descending permutation.  A
contract-conforming implementation reverses the two equal-timestamp
records, so the displayed order is not the stable (insertion) order the
claim promises. -/
theorem browser_sort_not_stable :
    SortsDescending antiStableSort
    ∧ browserOrder (fun _ => some 0) antiStableSort [recA, recB] = [recB, recA]
    ∧ ([recB, recA] : List PromptRecord) ≠ [recA, recB] := by
  refine ⟨sortsDescending_antiStableSort, by decide, by decide⟩

/-- C7 amended: for every timestamp parser and every sorting routine
meeting the `sort_values` contract, the browser view shows the records in
some timestamp-descending order (a permutation of the stored records, with
ties in unspecified order), and whenever any timestamp fails to parse the
view falls back to insertion order without failing. -/
theorem browser_order_desc_or_insertion (parse : String → Option Int)
    (sortImpl : List (Int × PromptRecord) → List (Int × PromptRecord))
    (records : List PromptRecord) (hs : SortsDescending sortImpl) :
    (parseAll parse records = none →
      browserOrder parse sortImpl records = records)
    ∧ (∀ keyed, parseAll parse records = some keyed →
        (browserOrder parse sortImpl records).Perm records
        ∧ (browserOrder parse sortImpl records).Pairwise
            (fun r1 r2 => ∀ t1 t2, parse r1.timestamp = some t1 →
              parse r2.timestamp = some t2 → t2 ≤ t1)) := by
  constructor
  · intro h
    unfold browserOrder
    rw [h]
  · intro keyed h
    have hbo : browserOrder parse sortImpl records = (sortImpl keyed).map Prod.snd := by
      unfold browserOrder
      rw [h]
    constructor
    · rw [hbo]
      have h1 : ((sortImpl keyed).map Prod.snd).Perm (keyed.map Prod.snd) :=
        (hs keyed).1.map Prod.snd
      rw [parseAll_map_snd h] at h1
      exact h1
    · rw [hbo]
      have hparse : ∀ p ∈ sortImpl keyed, parse p.2.timestamp = some p.1 := by
        intro p hp
        exact parseAll_elem h p ((hs keyed).1.subset hp)
      rw [List.pairwise_map]
      refine List.Pairwise.imp_of_mem ?_ (hs keyed).2
      intro a b ha hb hab t1 t2 ht1 ht2
      have ha2 : a.1 = t1 := Option.some.inj ((hparse a ha).symm.trans ht1)
      have hb2 : b.1 = t2 := Option.some.inj ((hparse b hb).symm.trans ht2)
      rw [← ha2, ← hb2]
      exact hab

/-- Witness for C7 (amended): an unparsable history shows in insertion
order, under the admissible descending insertion sort. -/
theorem browser_order_desc_or_insertion_witness :
    browserOrder (fun _ => none) sortDesc [recA] = [recA] :=
  (browser_order_desc_or_insertion (fun _ => none) sortDesc [recA]
    sortsDescending_sortDesc).1 rfl
